import Mathlib

/-!
# Verification of `simple_async_command_manager`

A shallow embedding of the task-queue core and of the Telegram front-end's
access control, with theorems settling the specification's claims.

The queue core (`commands/command_bases.py`: `CommandQueue`, `Command`,
`SubprocessCommand`) is not present in the source tree; only its tests,
callers and the specification describe it.  Those parts are therefore
modelled from the spec (each such definition says so in its doc comment).
The Telegram front-end (`ext/telegram_bot_event_handler.py`) is present and
is embedded directly from the source.
-/

namespace SACM

/-! ## The CommandQueue state

Modelled from the spec: `CommandQueue` holds a FIFO dispatch channel (an
`asyncio.Queue`), the channel's unfinished-task counter (incremented by
`put`, decremented by `task_done`; `join` — hence `wait_until_empty` —
returns exactly when it is zero), and the three ordered collections
`pending`, `running`, `completed` (plain Python lists in the tests). -/
structure CommandQueue (τ : Type) where
  dispatch : List τ
  unfinished : Nat
  pending : List τ
  running : List τ
  completed : List τ
deriving Repr, DecidableEq

/-- The freshly constructed queue: all collections empty (matches
`test_init`: `pending_commands == []` etc.). -/
def CommandQueue.init {τ : Type} : CommandQueue τ :=
  { dispatch := [], unfinished := 0, pending := [], running := [], completed := [] }

/-- Modelled from the spec: `put(task)` awaits `asyncio.Queue.put` (appending
the task to the dispatch channel and bumping the unfinished counter) and
appends the task to the `pending` collection, preserving submission order. -/
def CommandQueue.put {τ : Type} (q : CommandQueue τ) (t : τ) : CommandQueue τ :=
  { q with
      dispatch := q.dispatch ++ [t]
      unfinished := q.unfinished + 1
      pending := q.pending ++ [t] }

/-- Modelled from the spec: `get()` dequeues the head of the dispatch
channel, removes that task from `pending` and appends it to `running`
(matches `test_get`).  `none` models the worker still waiting because the
channel is empty. -/
def CommandQueue.get {τ : Type} [DecidableEq τ] (q : CommandQueue τ) :
    Option (τ × CommandQueue τ) :=
  match q.dispatch with
  | [] => none
  | t :: rest =>
      some (t,
        { q with
            dispatch := rest
            pending := q.pending.erase t
            running := q.running ++ [t] })

/-- Modelled from the spec: `task_done(task)` removes the task from
`running`, appends it to `completed`, and notifies the dispatch channel's
completion counter (`asyncio.Queue.task_done` decrements the unfinished
count; matches `test_task_done`). -/
def CommandQueue.task_done {τ : Type} [DecidableEq τ] (q : CommandQueue τ) (t : τ) :
    CommandQueue τ :=
  { q with
      running := q.running.erase t
      completed := q.completed ++ [t]
      unfinished := q.unfinished - 1 }

/-- Modelled from the spec: `wait_until_empty()` awaits `asyncio.Queue.join`,
which returns exactly when the unfinished-task counter is zero. -/
def CommandQueue.wait_until_empty_returns {τ : Type} (q : CommandQueue τ) : Bool :=
  q.unfinished == 0

/-- Modelled from the spec: `get_pending_commands()` returns a point-in-time
snapshot of the `pending` collection. -/
def CommandQueue.get_pending_commands {τ : Type} (q : CommandQueue τ) : List τ :=
  q.pending

/-- Modelled from the spec: `get_running_commands()` returns a point-in-time
snapshot of the `running` collection. -/
def CommandQueue.get_running_commands {τ : Type} (q : CommandQueue τ) : List τ :=
  q.running

/-- Modelled from the spec: `get_completed_commands()` returns a
point-in-time snapshot of the `completed` collection. -/
def CommandQueue.get_completed_commands {τ : Type} (q : CommandQueue τ) : List τ :=
  q.completed

/-- A task has been submitted (and not dropped) iff it is in one of the
three collections; per the spec their union is the set of all submitted
tasks. -/
def CommandQueue.submitted {τ : Type} (q : CommandQueue τ) (t : τ) : Prop :=
  t ∈ q.pending ∨ t ∈ q.running ∨ t ∈ q.completed

/-- Membership in exactly one of the three collections. -/
def CommandQueue.exactlyOne {τ : Type} (q : CommandQueue τ) (t : τ) : Prop :=
  (t ∈ q.pending ∧ t ∉ q.running ∧ t ∉ q.completed) ∨
  (t ∉ q.pending ∧ t ∈ q.running ∧ t ∉ q.completed) ∨
  (t ∉ q.pending ∧ t ∉ q.running ∧ t ∈ q.completed)

/-! ## The queue's operational protocol

Modelled from the spec: producers call `put` with freshly constructed task
objects (each task is a distinct object, submitted once); `get` is the
worker's dequeue; `task_done(task)` is "called by the worker after `run`
completes", i.e. only for the task currently in `running`. -/

/-- An observable queue operation. -/
inductive Op (τ : Type) where
  | put (t : τ)
  | get
  | task_done (t : τ)

/-- One protocol step of the queue.  `put` requires the task to be a fresh
object (not already held by the queue); `get` fires when the dispatch
channel is non-empty; `task_done` is issued by the worker for a task it is
currently running. -/
inductive Step {τ : Type} [DecidableEq τ] :
    CommandQueue τ → Op τ → CommandQueue τ → Prop where
  | put (q : CommandQueue τ) (t : τ)
      (hp : t ∉ q.pending) (hr : t ∉ q.running) (hc : t ∉ q.completed) :
      Step q (.put t) (q.put t)
  | get (q q' : CommandQueue τ) (t : τ) (h : q.get = some (t, q')) :
      Step q .get q'
  | task_done (q : CommandQueue τ) (t : τ) (h : t ∈ q.running) :
      Step q (.task_done t) (q.task_done t)

/-- States reachable from the fresh queue by protocol steps. -/
inductive Reachable {τ : Type} [DecidableEq τ] : CommandQueue τ → Prop where
  | init : Reachable CommandQueue.init
  | step {q q' : CommandQueue τ} {op : Op τ} :
      Reachable q → Step q op q' → Reachable q'

/-- The queue's structural invariant: the dispatch channel mirrors
`pending`, the three collections are duplicate-free and pairwise disjoint,
and the unfinished counter counts the not-yet-completed tasks. -/
def Inv {τ : Type} (q : CommandQueue τ) : Prop :=
  q.dispatch = q.pending ∧
  q.pending.Nodup ∧ q.running.Nodup ∧ q.completed.Nodup ∧
  (∀ t, ¬(t ∈ q.pending ∧ t ∈ q.running)) ∧
  (∀ t, ¬(t ∈ q.pending ∧ t ∈ q.completed)) ∧
  (∀ t, ¬(t ∈ q.running ∧ t ∈ q.completed)) ∧
  q.unfinished = q.pending.length + q.running.length

theorem inv_init {τ : Type} : Inv (CommandQueue.init : CommandQueue τ) := by
  simp [Inv, CommandQueue.init]

theorem put_eq {τ : Type} (q : CommandQueue τ) (t : τ) :
    (q.put t).dispatch = q.dispatch ++ [t] ∧
    (q.put t).unfinished = q.unfinished + 1 ∧
    (q.put t).pending = q.pending ++ [t] ∧
    (q.put t).running = q.running ∧
    (q.put t).completed = q.completed :=
  ⟨rfl, rfl, rfl, rfl, rfl⟩

theorem get_eq {τ : Type} [DecidableEq τ] {q q' : CommandQueue τ} {t : τ}
    (h : q.get = some (t, q')) :
    q.dispatch = t :: q'.dispatch ∧
    q'.pending = q.pending.erase t ∧
    q'.running = q.running ++ [t] ∧
    q'.completed = q.completed ∧
    q'.unfinished = q.unfinished := by
  unfold CommandQueue.get at h
  cases hdis : q.dispatch with
  | nil => rw [hdis] at h; simp at h
  | cons t0 rest =>
      rw [hdis] at h
      simp only [Option.some.injEq, Prod.mk.injEq] at h
      obtain ⟨ht, hq'⟩ := h
      subst ht
      subst hq'
      simp [hdis]

theorem task_done_eq {τ : Type} [DecidableEq τ] (q : CommandQueue τ) (t : τ) :
    (q.task_done t).dispatch = q.dispatch ∧
    (q.task_done t).unfinished = q.unfinished - 1 ∧
    (q.task_done t).pending = q.pending ∧
    (q.task_done t).running = q.running.erase t ∧
    (q.task_done t).completed = q.completed ++ [t] :=
  ⟨rfl, rfl, rfl, rfl, rfl⟩

theorem nodup_append_singleton {τ : Type} {l : List τ} {a : τ}
    (hl : l.Nodup) (ha : a ∉ l) : (l ++ [a]).Nodup := by
  simp [List.nodup_append, hl, ha]

theorem inv_step {τ : Type} [DecidableEq τ] {q q' : CommandQueue τ} {op : Op τ}
    (hq : Inv q) (hs : Step q op q') : Inv q' := by
  obtain ⟨hd, hnp, hnr, hnc, hpr, hpc, hrc, hcnt⟩ := hq
  cases hs with
  | put t hp hr hc =>
      obtain ⟨e1, e2, e3, e4, e5⟩ := put_eq q t
      refine ⟨by rw [e1, e3, hd], ?_, ?_, ?_, ?_, ?_, ?_, ?_⟩
      · rw [e3]; exact nodup_append_singleton hnp hp
      · rw [e4]; exact hnr
      · rw [e5]; exact hnc
      · intro u hu
        rw [e3, e4] at hu
        rcases List.mem_append.mp hu.1 with h | h
        · exact hpr u ⟨h, hu.2⟩
        · simp at h; subst h; exact hr hu.2
      · intro u hu
        rw [e3, e5] at hu
        rcases List.mem_append.mp hu.1 with h | h
        · exact hpc u ⟨h, hu.2⟩
        · simp at h; subst h; exact hc hu.2
      · intro u hu
        rw [e4, e5] at hu
        exact hrc u hu
      · rw [e2, e3, e4, hcnt]; simp; omega
  | get q' t h =>
      obtain ⟨e1, e2, e3, e4, e5⟩ := get_eq h
      have hpnd : q.pending = t :: q'.dispatch := by rw [← hd, e1]
      have hterase : q.pending.erase t = q'.dispatch := by
        rw [hpnd, List.erase_cons_head]
      have htp : t ∈ q.pending := by rw [hpnd]; exact List.mem_cons_self _ _
      have htnr : t ∉ q.running := fun hm => hpr t ⟨htp, hm⟩
      have htnc : t ∉ q.completed := fun hm => hpc t ⟨htp, hm⟩
      have hrest : q'.dispatch.Nodup ∧ t ∉ q'.dispatch := by
        rw [hpnd] at hnp
        exact ⟨hnp.of_cons, (List.nodup_cons.mp hnp).1⟩
      refine ⟨by rw [e2, hterase], ?_, ?_, ?_, ?_, ?_, ?_, ?_⟩
      · rw [e2, hterase]; exact hrest.1
      · rw [e3]; exact nodup_append_singleton hnr htnr
      · rw [e4]; exact hnc
      · intro u hu
        rw [e2, hterase, e3] at hu
        rcases List.mem_append.mp hu.2 with h2 | h2
        · exact hpr u ⟨by rw [hpnd]; exact List.mem_cons_of_mem _ hu.1, h2⟩
        · simp at h2; subst h2; exact hrest.2 hu.1
      · intro u hu
        rw [e2, hterase, e4] at hu
        exact hpc u ⟨by rw [hpnd]; exact List.mem_cons_of_mem _ hu.1, hu.2⟩
      · intro u hu
        rw [e3, e4] at hu
        rcases List.mem_append.mp hu.1 with h1 | h1
        · exact hrc u ⟨h1, hu.2⟩
        · simp at h1; subst h1; exact htnc hu.2
      · rw [e5, e2, e3, hterase, hcnt, hpnd]
        simp only [List.length_cons, List.length_append, List.length_nil]
        omega
  | task_done t h =>
      obtain ⟨e1, e2, e3, e4, e5⟩ := task_done_eq q t
      have htnp : t ∉ q.pending := fun hm => hpr t ⟨hm, h⟩
      have htnc : t ∉ q.completed := fun hm => hrc t ⟨h, hm⟩
      refine ⟨by rw [e1, e3, hd], ?_, ?_, ?_, ?_, ?_, ?_, ?_⟩
      · rw [e3]; exact hnp
      · rw [e4]; exact hnr.erase t
      · rw [e5]; exact nodup_append_singleton hnc htnc
      · intro u hu
        rw [e3, e4] at hu
        exact hpr u ⟨hu.1, List.erase_subset _ _ hu.2⟩
      · intro u hu
        rw [e3, e5] at hu
        rcases List.mem_append.mp hu.2 with h2 | h2
        · exact hpc u ⟨hu.1, h2⟩
        · simp at h2; subst h2; exact htnp hu.1
      · intro u hu
        rw [e4, e5] at hu
        rcases List.mem_append.mp hu.2 with h2 | h2
        · exact hrc u ⟨List.erase_subset _ _ hu.1, h2⟩
        · simp at h2; subst h2
          exact (hnr.mem_erase_iff.mp hu.1).1 rfl
      · have hlen : (q.running.erase t).length = q.running.length - 1 :=
          List.length_erase_of_mem h
        have hpos : 0 < q.running.length := List.length_pos_of_mem h
        rw [e2, e3, e4, hlen, hcnt]
        omega

theorem inv_reachable {τ : Type} [DecidableEq τ] {q : CommandQueue τ}
    (h : Reachable q) : Inv q := by
  induction h with
  | init => exact inv_init
  | step _ hs ih => exact inv_step ih hs

theorem exactlyOne_of_inv {τ : Type} {q : CommandQueue τ} (hq : Inv q) (t : τ)
    (hs : q.submitted t) : q.exactlyOne t := by
  obtain ⟨-, -, -, -, hpr, hpc, hrc, -⟩ := hq
  rcases hs with h | h | h
  · exact Or.inl ⟨h, fun hr => hpr t ⟨h, hr⟩, fun hc => hpc t ⟨h, hc⟩⟩
  · exact Or.inr (Or.inl ⟨fun hp => hpr t ⟨hp, h⟩, h, fun hc => hrc t ⟨h, hc⟩⟩)
  · exact Or.inr (Or.inr ⟨fun hp => hpc t ⟨hp, h⟩, fun hr => hrc t ⟨hr, h⟩, h⟩)

theorem step_forward {τ : Type} [DecidableEq τ] {q q' : CommandQueue τ} {op : Op τ}
    (hq : Inv q) (hs : Step q op q') (t : τ) :
    (t ∈ q.pending → t ∈ q'.pending ∨ t ∈ q'.running) ∧
    (t ∈ q.running → t ∈ q'.running ∨ t ∈ q'.completed) ∧
    (t ∈ q.completed → t ∈ q'.completed ∧ t ∉ q'.pending ∧ t ∉ q'.running) := by
  obtain ⟨hd, hnp, hnr, hnc, hpr, hpc, hrc, hcnt⟩ := hq
  cases hs with
  | put u hp hr hc =>
      obtain ⟨e1, e2, e3, e4, e5⟩ := put_eq q u
      refine ⟨?_, ?_, ?_⟩
      · intro h; exact Or.inl (by rw [e3]; exact List.mem_append_left _ h)
      · intro h; exact Or.inl (by rw [e4]; exact h)
      · intro h
        refine ⟨by rw [e5]; exact h, ?_, ?_⟩
        · rw [e3]
          intro hmem
          rcases List.mem_append.mp hmem with h1 | h1
          · exact hpc t ⟨h1, h⟩
          · simp at h1; subst h1; exact hc h
        · rw [e4]; exact fun h1 => hrc t ⟨h1, h⟩
  | get q' u h =>
      obtain ⟨e1, e2, e3, e4, e5⟩ := get_eq h
      have hpnd : q.pending = u :: q'.dispatch := by rw [← hd, e1]
      have hup : u ∈ q.pending := by rw [hpnd]; exact List.mem_cons_self _ _
      refine ⟨?_, ?_, ?_⟩
      · intro hmem
        by_cases hne : t = u
        · subst hne
          exact Or.inr (by rw [e3]; exact List.mem_append_right _ (List.mem_singleton.mpr rfl))
        · exact Or.inl (by rw [e2]; exact (List.mem_erase_of_ne hne).mpr hmem)
      · intro hmem
        exact Or.inl (by rw [e3]; exact List.mem_append_left _ hmem)
      · intro hmem
        refine ⟨by rw [e4]; exact hmem, ?_, ?_⟩
        · rw [e2]
          intro h1
          exact hpc t ⟨List.erase_subset _ _ h1, hmem⟩
        · rw [e3]
          intro h1
          rcases List.mem_append.mp h1 with h2 | h2
          · exact hrc t ⟨h2, hmem⟩
          · simp at h2; subst h2; exact hpc t ⟨hup, hmem⟩
  | task_done u h =>
      obtain ⟨e1, e2, e3, e4, e5⟩ := task_done_eq q u
      refine ⟨?_, ?_, ?_⟩
      · intro hmem; exact Or.inl (by rw [e3]; exact hmem)
      · intro hmem
        by_cases hne : t = u
        · subst hne
          exact Or.inr (by rw [e5]; exact List.mem_append_right _ (List.mem_singleton.mpr rfl))
        · exact Or.inl (by rw [e4]; exact (List.mem_erase_of_ne hne).mpr hmem)
      · intro hmem
        refine ⟨by rw [e5]; exact List.mem_append_left _ hmem, ?_, ?_⟩
        · rw [e3]; exact fun h1 => hpc t ⟨h1, hmem⟩
        · rw [e4]
          intro h1
          exact hrc t ⟨List.erase_subset _ _ h1, hmem⟩

/-! ## Claim theorems C1 - C4 -/

/-- C1: at every reachable observation point a submitted task belongs to
exactly one of `pending`, `running`, `completed`, and every protocol step
moves membership only forward: from `pending` a task can only stay pending
or enter `running`; from `running` only stay or enter `completed`; once in
`completed` it stays there and never reappears in `pending` or `running`. -/
theorem C1_state_partition_monotone {τ : Type} [DecidableEq τ]
    {q q' : CommandQueue τ} {op : Op τ} (t : τ)
    (hq : Reachable q) (hs : Step q op q') :
    (q.submitted t → q.exactlyOne t) ∧
    (q'.submitted t → q'.exactlyOne t) ∧
    (t ∈ q.pending → t ∈ q'.pending ∨ t ∈ q'.running) ∧
    (t ∈ q.running → t ∈ q'.running ∨ t ∈ q'.completed) ∧
    (t ∈ q.completed → t ∈ q'.completed ∧ t ∉ q'.pending ∧ t ∉ q'.running) := by
  have hinv := inv_reachable hq
  have hinv' := inv_step hinv hs
  obtain ⟨h1, h2, h3⟩ := step_forward hinv hs t
  exact ⟨exactlyOne_of_inv hinv t, exactlyOne_of_inv hinv' t, h1, h2, h3⟩

/-- Reachable example states used by the claim witnesses: one task (`0`)
is submitted, dequeued, and completed. -/
def qW1 : CommandQueue Nat := CommandQueue.init.put 0

def qW2 : CommandQueue Nat :=
  { dispatch := [], unfinished := 1, pending := [], running := [0], completed := [] }

def qW3 : CommandQueue Nat :=
  { dispatch := [], unfinished := 0, pending := [], running := [], completed := [0] }

theorem qW1_reachable : Reachable qW1 :=
  Reachable.step Reachable.init
    (Step.put CommandQueue.init 0 (by decide) (by decide) (by decide))

theorem qW1_get : qW1.get = some (0, qW2) := by decide

theorem qW2_reachable : Reachable qW2 :=
  Reachable.step qW1_reachable (Step.get qW1 qW2 0 qW1_get)

theorem qW3_reachable : Reachable qW3 :=
  Reachable.step qW2_reachable (Step.task_done qW2 0 (by decide))

theorem C1_witness :
    ((qW1.submitted 0 → qW1.exactlyOne 0) ∧
     (qW2.submitted 0 → qW2.exactlyOne 0) ∧
     (0 ∈ qW1.pending → 0 ∈ qW2.pending ∨ 0 ∈ qW2.running) ∧
     (0 ∈ qW1.running → 0 ∈ qW2.running ∨ 0 ∈ qW2.completed) ∧
     (0 ∈ qW1.completed → 0 ∈ qW2.completed ∧ 0 ∉ qW2.pending ∧ 0 ∉ qW2.running)) :=
  C1_state_partition_monotone 0 qW1_reachable (Step.get qW1 qW2 0 qW1_get)

/-- C2: `get` removes the dequeued task from `pending` and appends it to
`running` (leaving `completed` and the completion counter untouched), and
`task_done` then removes it from `running`, appends it to `completed`, and
decrements the dispatch channel's completion counter (leaving `pending`
untouched).  These equalities pin down exactly the transitions the worker
performs. -/
theorem C2_worker_transitions {τ : Type} [DecidableEq τ]
    {q q' : CommandQueue τ} {t : τ} (hget : q.get = some (t, q')) :
    (q'.pending = q.pending.erase t ∧ q'.running = q.running ++ [t] ∧
     q'.completed = q.completed ∧ q'.unfinished = q.unfinished) ∧
    ((q'.task_done t).running = q'.running.erase t ∧
     (q'.task_done t).completed = q'.completed ++ [t] ∧
     (q'.task_done t).pending = q'.pending ∧
     (q'.task_done t).unfinished = q'.unfinished - 1) := by
  obtain ⟨e1, e2, e3, e4, e5⟩ := get_eq hget
  exact ⟨⟨e2, e3, e4, e5⟩, rfl, rfl, rfl, rfl⟩

theorem C2_witness :
    (qW2.pending = qW1.pending.erase 0 ∧ qW2.running = qW1.running ++ [0] ∧
     qW2.completed = qW1.completed ∧ qW2.unfinished = qW1.unfinished) ∧
    ((qW2.task_done 0).running = qW2.running.erase 0 ∧
     (qW2.task_done 0).completed = qW2.completed ++ [0] ∧
     (qW2.task_done 0).pending = qW2.pending ∧
     (qW2.task_done 0).unfinished = qW2.unfinished - 1) :=
  C2_worker_transitions qW1_get

theorem foldl_put {τ : Type} (ts : List τ) (q : CommandQueue τ) :
    (ts.foldl CommandQueue.put q).pending = q.pending ++ ts ∧
    (ts.foldl CommandQueue.put q).dispatch = q.dispatch ++ ts := by
  induction ts generalizing q with
  | nil => simp
  | cons t ts ih =>
      obtain ⟨ihp, ihd⟩ := ih (q.put t)
      refine ⟨?_, ?_⟩
      · rw [List.foldl_cons, ihp]
        show (q.pending ++ [t]) ++ ts = q.pending ++ t :: ts
        simp
      · rw [List.foldl_cons, ihd]
        show (q.dispatch ++ [t]) ++ ts = q.dispatch ++ t :: ts
        simp

/-- C3: each `put` appends the task to both the dispatch channel and the
`pending` collection, and any sequence of `put` calls starting from the
fresh queue leaves `pending` and the dispatch channel listing the tasks in
exact submission (FIFO) order. -/
theorem C3_put_fifo {τ : Type} (ts : List τ) (q : CommandQueue τ) (t : τ) :
    (q.put t).dispatch = q.dispatch ++ [t] ∧
    (q.put t).pending = q.pending ++ [t] ∧
    (ts.foldl CommandQueue.put CommandQueue.init).pending = ts ∧
    (ts.foldl CommandQueue.put CommandQueue.init).dispatch = ts := by
  obtain ⟨hp, hd⟩ := foldl_put ts CommandQueue.init
  exact ⟨rfl, rfl, by simpa [CommandQueue.init] using hp,
         by simpa [CommandQueue.init] using hd⟩

/-- C4: in any reachable state in which `wait_until_empty` can return (the
dispatch channel's unfinished counter is zero), `pending` and `running` are
empty, so every task submitted before the call has reached `completed`. -/
theorem C4_wait_until_empty {τ : Type} [DecidableEq τ] {q : CommandQueue τ}
    (t : τ) (hq : Reachable q) (hret : q.wait_until_empty_returns = true) :
    q.pending = [] ∧ q.running = [] ∧ (q.submitted t → t ∈ q.completed) := by
  obtain ⟨-, -, -, -, -, -, -, hcnt⟩ := inv_reachable hq
  have hz : q.unfinished = 0 := by
    simpa [CommandQueue.wait_until_empty_returns] using hret
  rw [hz] at hcnt
  have hp : q.pending = [] := List.length_eq_zero.mp (by omega)
  have hr : q.running = [] := List.length_eq_zero.mp (by omega)
  refine ⟨hp, hr, ?_⟩
  intro hs
  rcases hs with h | h | h
  · rw [hp] at h; cases h
  · rw [hr] at h; cases h
  · exact h

theorem C4_witness :
    qW3.pending = [] ∧ qW3.running = [] ∧ (qW3.submitted 0 → 0 ∈ qW3.completed) :=
  C4_wait_until_empty 0 qW3_reachable (by decide)

/-! ## Tasks

Modelled from the spec: a `Command` wraps a callable plus arguments; what
invoking the callable would yield — a return value or a raised error — is
fixed data of the wrapped work.  `run` invokes it (awaiting when
asynchronous), catches any raised error, and stores the outcome on the
task; `run`'s Lean type is total (`Command → Command`), which is exactly
the non-propagation guarantee: it cannot raise past its own boundary. -/

/-- Invoking a Python callable either returns a value or raises an error. -/
inductive PyOutcome where
  | ok (value : String)
  | error (msg : String)
deriving Repr, DecidableEq

/-- Modelled from the spec: a `Command` wrapping a (sync or async) callable.
`behavior` is what invoking the callable yields; `outcome` is populated
only after `run` completes and is absent before. -/
structure Command where
  isAsync : Bool
  behavior : PyOutcome
  outcome : Option PyOutcome
deriving Repr, DecidableEq

/-- Modelled from the spec: `Command.run` awaits the callable if it is
asynchronous, invokes it directly otherwise, and stores the result (or the
raised error, wrapped as a failure record) on the task. -/
def Command.run (c : Command) : Command :=
  { c with outcome := some c.behavior }

/-- Modelled from the spec: a human-readable status snapshot, callable at
any point in the lifecycle. -/
def Command.get_status (c : Command) : String :=
  match c.outcome with
  | none => "Command pending"
  | some (.ok v) => "Command completed with result: " ++ v
  | some (.error m) => "Command failed: " ++ m

/-- Modelled from the spec: a `SubprocessCommand` wrapping an external
program invocation.  `spawnResult` is what the operating system would do at
spawn time: `none` when spawning fails (program not found), or the text the
child writes to each stream and its exit code.  Captured output and the
exit code are populated only after `run`. -/
structure SubprocessCommand where
  args : List String
  spawnResult : Option (String × String × Int)
  stdoutText : Option String
  stderrText : Option String
  returncode : Option Int
  spawnError : Option String
deriving Repr, DecidableEq

/-- Modelled from the spec: construction takes an argument vector and
validates that it is non-empty; nothing is executed at construction. -/
def mkSubprocessCommand (args : List String)
    (spawnResult : Option (String × String × Int)) : Option SubprocessCommand :=
  if args.isEmpty then none
  else some { args := args, spawnResult := spawnResult, stdoutText := none,
              stderrText := none, returncode := none, spawnError := none }

/-- Modelled from the spec: `run` spawns the child; a spawn failure is
recorded as a failure outcome; otherwise both streams are drained to
end-of-stream, the exit wait finishes, and the captured text plus the exit
code (non-zero included, recorded rather than raised) are stored. -/
def SubprocessCommand.run (s : SubprocessCommand) : SubprocessCommand :=
  match s.spawnResult with
  | none => { s with spawnError := some "failed to spawn process" }
  | some (out, err, code) =>
      { s with stdoutText := some out, stderrText := some err,
               returncode := some code }

/-- Modelled from the spec: `get_output()` returns `(stdout_text,
stderr_text)`, both empty strings when the task has not yet completed; it
never blocks and never raises (it is a total function). -/
def SubprocessCommand.get_output (s : SubprocessCommand) : String × String :=
  (s.stdoutText.getD "", s.stderrText.getD "")

/-- Modelled from the spec: a human-readable status snapshot. -/
def SubprocessCommand.get_status (s : SubprocessCommand) : String :=
  match s.spawnError with
  | some m => "Subprocess failed: " ++ m
  | none =>
      match s.returncode with
      | none => "Subprocess pending or running"
      | some c => "Subprocess exited with code " ++ toString c

/-- A task is either a `Command` or a `SubprocessCommand`. -/
inductive TaskData where
  | command (c : Command)
  | subprocess (s : SubprocessCommand)
deriving Repr, DecidableEq

/-- `run` dispatches on the task kind; it is total: no failure of the
wrapped work can propagate out of it. -/
def TaskData.run : TaskData → TaskData
  | .command c => .command c.run
  | .subprocess s => .subprocess s.run

def TaskData.get_status : TaskData → String
  | .command c => c.get_status
  | .subprocess s => s.get_status

/-- The wrapped work will fail when run: the callable raises, or the
process cannot be spawned, or it exits non-zero. -/
def TaskData.willFail : TaskData → Bool
  | .command c =>
      match c.behavior with
      | .error _ => true
      | .ok _ => false
  | .subprocess s =>
      match s.spawnResult with
      | none => true
      | some (_, _, code) => code != 0

/-- The task's recorded terminal outcome is a failure (readable through
`get_status`/`get_output`): a recorded raised error, a recorded spawn
failure, or a recorded non-zero exit code. -/
def TaskData.failed : TaskData → Bool
  | .command c =>
      match c.outcome with
      | some (.error _) => true
      | _ => false
  | .subprocess s =>
      s.spawnError.isSome ||
      (match s.returncode with
       | some code => code != 0
       | none => false)

/-! ## The worker loop

Modelled from the spec: `run_commands` repeats — check the stop signal; if
set, exit; otherwise wait (with a bounded timeout, so the stop signal is
rechecked periodically) for a task, run it to completion, and mark it done.
The queue holds task identities; a separate store maps each identity to the
task's data, updated when the worker runs it. -/

/-- A queue of task identities together with the tasks' data. -/
structure System where
  queue : CommandQueue Nat
  tasks : Nat → TaskData

/-- One body iteration of the worker loop: dequeue the next task, run it to
completion, then mark it done.  `none` models the bounded-timeout wait
expiring with no task available. -/
def System.processOne (sys : System) : Option System :=
  match sys.queue.get with
  | none => none
  | some (t, q') =>
      some { queue := q'.task_done t,
             tasks := fun i => if i = t then (sys.tasks t).run else sys.tasks i }

/-- Modelled from the spec: the worker loop.  `stopSched i` is the value of
the stop signal observed at the head of iteration `i`; the loop exits when
it observes the signal set, and otherwise runs one full body iteration
(dequeue, run to completion, mark done) before observing it again.  `fuel`
bounds the number of iterations so the function is total. -/
def runCommandsAux (stopSched : Nat → Bool) : Nat → Nat → System → System
  | 0, _, sys => sys
  | fuel + 1, i, sys =>
      if stopSched i then sys
      else
        match sys.processOne with
        | none => runCommandsAux stopSched fuel (i + 1) sys
        | some sys' => runCommandsAux stopSched fuel (i + 1) sys'

def run_commands (stopSched : Nat → Bool) (fuel : Nat) (sys : System) : System :=
  runCommandsAux stopSched fuel 0 sys

/-! ## Claim theorems C5, C7, C8 -/

theorem run_failed_of_willFail {td : TaskData} (h : td.willFail = true) :
    td.run.failed = true := by
  cases td with
  | command c =>
      cases hb : c.behavior with
      | ok v => simp [TaskData.willFail, hb] at h
      | error m => simp [TaskData.run, TaskData.failed, Command.run, hb]
  | subprocess s =>
      cases hs : s.spawnResult with
      | none => simp [TaskData.run, TaskData.failed, SubprocessCommand.run, hs]
      | some r =>
          obtain ⟨out, rest⟩ := r
          obtain ⟨err, code⟩ := rest
          simp only [TaskData.willFail, hs] at h
          simp [TaskData.run, TaskData.failed, SubprocessCommand.run, hs, h]

/-- C5: a task whose wrapped work fails (raising callable, failed spawn, or
non-zero exit) is still processed normally by the worker: `run` is a total
function (the failure is caught inside it and recorded as the task's
terminal outcome, never propagating to the worker loop), the body iteration
succeeds, and the failed task ends up in `completed` with its failure
outcome recorded on it. -/
theorem C5_failure_contained {sys : System} {t : Nat} {q' : CommandQueue Nat}
    (hget : sys.queue.get = some (t, q'))
    (hfail : (sys.tasks t).willFail = true) :
    (sys.processOne).isSome = true ∧
    t ∈ ((sys.processOne).getD sys).queue.completed ∧
    ((sys.processOne).getD sys).tasks t = (sys.tasks t).run ∧
    (((sys.processOne).getD sys).tasks t).failed = true := by
  have hpo : sys.processOne =
      some { queue := q'.task_done t,
             tasks := fun i => if i = t then (sys.tasks t).run else sys.tasks i } := by
    simp [System.processOne, hget]
  rw [hpo]
  refine ⟨rfl, ?_, ?_, ?_⟩
  · show t ∈ (q'.task_done t).completed
    rw [(task_done_eq q' t).2.2.2.2]
    exact List.mem_append_right _ (List.mem_singleton.mpr rfl)
  · simp
  · simp [run_failed_of_willFail hfail]

/-- A failing synchronous command, used by the C5 witness. -/
def sysW : System :=
  { queue := qW1,
    tasks := fun _ => .command { isAsync := false, behavior := .error "boom", outcome := none } }

theorem C5_witness :
    (sysW.processOne).isSome = true ∧
    0 ∈ ((sysW.processOne).getD sysW).queue.completed ∧
    ((sysW.processOne).getD sysW).tasks 0 = (sysW.tasks 0).run ∧
    (((sysW.processOne).getD sysW).tasks 0).failed = true :=
  C5_failure_contained qW1_get (by rfl)

/-- C7: a freshly constructed `SubprocessCommand` answers `get_output` with
`("", "")` (totally, hence without blocking or raising), and after `run`
completes — for any child that writes `out` to stdout, `err` to stderr and
exits with any code — `get_output` returns the full captured text and the
exit code is recorded. -/
theorem C7_get_output {args : List String} {out err : String} {code : Int}
    {s0 : SubprocessCommand}
    (hmk : mkSubprocessCommand args (some (out, err, code)) = some s0) :
    s0.get_output = ("", "") ∧
    s0.run.get_output = (out, err) ∧
    s0.run.returncode = some code := by
  cases args with
  | nil => simp [mkSubprocessCommand] at hmk
  | cons a as =>
      simp only [mkSubprocessCommand, List.isEmpty_cons, Bool.false_eq_true,
        if_false, Option.some.injEq] at hmk
      subst hmk
      simp [SubprocessCommand.get_output, SubprocessCommand.run]

theorem C7_witness :
    ({ args := ["prog"], spawnResult := some ("o", "e", 3), stdoutText := none,
       stderrText := none, returncode := none,
       spawnError := none } : SubprocessCommand).get_output = ("", "") ∧
    ({ args := ["prog"], spawnResult := some ("o", "e", 3), stdoutText := none,
       stderrText := none, returncode := none,
       spawnError := none } : SubprocessCommand).run.get_output = ("o", "e") ∧
    ({ args := ["prog"], spawnResult := some ("o", "e", 3), stdoutText := none,
       stderrText := none, returncode := none,
       spawnError := none } : SubprocessCommand).run.returncode = some 3 :=
  @C7_get_output ["prog"] "o" "e" 3
    { args := ["prog"], spawnResult := some ("o", "e", 3), stdoutText := none,
      stderrText := none, returncode := none, spawnError := none } (by rfl)

theorem runCommandsAux_stop (stopSched : Nat → Bool) (fuel i : Nat) (sys : System)
    (h : stopSched i = true) : runCommandsAux stopSched fuel i sys = sys := by
  cases fuel with
  | zero => rfl
  | succ f => simp [runCommandsAux, h]

/-- C8: when the stop signal is observed unset at the head of an iteration
and is set from then on (it was set while the dequeued task was
mid-execution), the worker loop still runs that task to completion inside
the same iteration, marks it completed, and exits before dequeuing
anything else: the loop's final state is exactly the one body iteration's
result, the dequeued task is in `completed`, the remaining pending tasks
are still pending, and no other task's data was touched (no other task was
run). -/
theorem C8_stop_exits_after_current {sys : System} {t : Nat} {q' : CommandQueue Nat}
    (stopSched : Nat → Bool) (fuel u : Nat)
    (hget : sys.queue.get = some (t, q'))
    (h0 : stopSched 0 = false)
    (h1 : stopSched 1 = true)
    (hfuel : 1 ≤ fuel)
    (hu : u ≠ t) :
    (sys.processOne).isSome = true ∧
    run_commands stopSched fuel sys = (sys.processOne).getD sys ∧
    t ∈ ((sys.processOne).getD sys).queue.completed ∧
    ((sys.processOne).getD sys).queue.pending = sys.queue.pending.erase t ∧
    ((sys.processOne).getD sys).tasks t = (sys.tasks t).run ∧
    ((sys.processOne).getD sys).tasks u = sys.tasks u := by
  have hpo : sys.processOne =
      some { queue := q'.task_done t,
             tasks := fun i => if i = t then (sys.tasks t).run else sys.tasks i } := by
    simp [System.processOne, hget]
  obtain ⟨f, rfl⟩ : ∃ f, fuel = f + 1 := ⟨fuel - 1, by omega⟩
  refine ⟨by rw [hpo]; rfl, ?_, ?_, ?_, ?_, ?_⟩
  · show runCommandsAux stopSched (f + 1) 0 sys = _
    rw [runCommandsAux, if_neg (by simp [h0]), hpo]
    exact runCommandsAux_stop stopSched f 1 _ h1
  · rw [hpo]
    show t ∈ (q'.task_done t).completed
    rw [(task_done_eq q' t).2.2.2.2]
    exact List.mem_append_right _ (List.mem_singleton.mpr rfl)
  · rw [hpo]
    show (q'.task_done t).pending = sys.queue.pending.erase t
    rw [(task_done_eq q' t).2.2.1, (get_eq hget).2.1]
  · rw [hpo]; simp
  · rw [hpo]; simp [hu]

/-- Two tasks submitted; the stop signal is set during the first one's
execution.  Used by the C8 witness. -/
def sysW8 : System :=
  { queue := (CommandQueue.init.put 0).put 1,
    tasks := fun _ => .command { isAsync := false, behavior := .ok "hi", outcome := none } }

theorem C8_witness :
    (sysW8.processOne).isSome = true ∧
    run_commands (fun i => decide (1 ≤ i)) 2 sysW8 = (sysW8.processOne).getD sysW8 ∧
    0 ∈ ((sysW8.processOne).getD sysW8).queue.completed ∧
    ((sysW8.processOne).getD sysW8).queue.pending = sysW8.queue.pending.erase 0 ∧
    ((sysW8.processOne).getD sysW8).tasks 0 = (sysW8.tasks 0).run ∧
    ((sysW8.processOne).getD sysW8).tasks 1 = sysW8.tasks 1 :=
  C8_stop_exits_after_current (fun i => decide (1 ≤ i)) 2 1 (by rfl)
    (by decide) (by decide) (by decide) (by decide)

/-! ## The Telegram front-end (`ext/telegram_bot_event_handler.py`)

Embedded directly from the source.  A Python callable is modelled by its
coroutine-function flag, its call behaviour, and the optional
`_is_restricted` attribute set on the function object (absent unless some
code set it). -/

structure PyFunc (α β : Type) where
  isCoroutineFunction : Bool
  call : α → β
  attrRestricted : Option Bool

/-- Embedded from `restricted` (lines 34-48): wrap the callable in a
coroutine wrapper awaiting it when it is a coroutine function, in a plain
wrapper calling it otherwise, and set `_is_restricted = True` on the
wrapper that is returned. -/
def restrictedDecorator {α β : Type} (f : PyFunc α β) : PyFunc α β :=
  if f.isCoroutineFunction then
    { isCoroutineFunction := true, call := fun a => f.call a,
      attrRestricted := some true }
  else
    { isCoroutineFunction := false, call := fun a => f.call a,
      attrRestricted := some true }

/-- Embedded from `is_restricted_function` (lines 51-53):
`getattr(func, _is_restricted, False)`. -/
def is_restricted_function {α β : Type} (f : PyFunc α β) : Bool :=
  f.attrRestricted.getD false

/-- Python truthiness of an `Optional[List[int]]`: `None` and the empty
list are falsy; a non-empty list is truthy. -/
def pyTruthy (l : Option (List Int)) : Bool :=
  match l with
  | none => false
  | some xs => !xs.isEmpty

/-- The outcome of `wrapped_handler`'s access check: on either denial the
handler is not invoked and the denial message ("You are not authorized to
use this command.") is sent; on `allowed` the check has passed and
execution continues past it. -/
inductive AccessDecision where
  | deniedBlacklist
  | deniedWhitelist
  | allowed
deriving Repr, DecidableEq

/-- Embedded from `TelegramBotHandler.add_command_handler.wrapped_handler`
(lines 210-222): for a restricted handler, first
`if self.user_blacklist and user_id in self.user_blacklist: ... return`,
then `if self.user_whitelist and user_id not in self.user_whitelist: ...
return`; an unrestricted handler skips the whole check. -/
def wrappedHandlerAccess (handlerRestricted : Bool)
    (user_blacklist user_whitelist : Option (List Int)) (user_id : Int) :
    AccessDecision :=
  if handlerRestricted then
    if pyTruthy user_blacklist && (user_blacklist.getD []).contains user_id then
      .deniedBlacklist
    else if pyTruthy user_whitelist && !((user_whitelist.getD []).contains user_id) then
      .deniedWhitelist
    else .allowed
  else .allowed

/-- The access policy in the words of claim C9: if the blacklist is
non-empty and contains the caller, deny; otherwise if the whitelist is
non-empty and does not contain the caller, deny; otherwise allow; an
unrestricted handler is always allowed. -/
def claimAccessDecision (handlerRestricted : Bool)
    (user_blacklist user_whitelist : Option (List Int)) (user_id : Int) :
    AccessDecision :=
  if !handlerRestricted then .allowed
  else if (match user_blacklist with
           | some l => !l.isEmpty && l.contains user_id
           | none => false) then .deniedBlacklist
  else if (match user_whitelist with
           | some l => !l.isEmpty && !(l.contains user_id)
           | none => false) then .deniedWhitelist
  else .allowed

/-! ## Claim theorems C9, C10 -/

/-- C9: the access check of `wrapped_handler` implements exactly the policy
the claim describes — blacklist denial first, then whitelist denial, else
allowed; with both lists `None` or empty every caller is allowed, and an
unrestricted handler skips the check entirely. -/
theorem C9_access_control (r : Bool) (bl wl : Option (List Int)) (uid : Int) :
    wrappedHandlerAccess r bl wl uid = claimAccessDecision r bl wl uid ∧
    wrappedHandlerAccess r none none uid = .allowed ∧
    wrappedHandlerAccess r (some []) (some []) uid = .allowed ∧
    wrappedHandlerAccess false bl wl uid = .allowed := by
  refine ⟨?_, ?_, ?_, ?_⟩
  · cases r with
    | false => simp [wrappedHandlerAccess, claimAccessDecision]
    | true =>
        cases bl with
        | none => cases wl <;> simp [wrappedHandlerAccess, claimAccessDecision, pyTruthy]
        | some lb => cases wl <;> simp [wrappedHandlerAccess, claimAccessDecision, pyTruthy]
  · cases r <;> simp [wrappedHandlerAccess, pyTruthy]
  · cases r <;> simp [wrappedHandlerAccess, pyTruthy]
  · simp [wrappedHandlerAccess]

/-- C10: `restricted` preserves the callable's kind and behaviour while
marking it — the wrapper is a coroutine function exactly when the wrapped
callable is, it forwards the call and returns its result unchanged, the
wrapper tests positive under `is_restricted_function`, and any callable
whose `_is_restricted` attribute was never set tests negative. -/
theorem C10_restricted_marks_preserves {α β : Type} (f : PyFunc α β) (a : α)
    (b : Bool) (g : α → β) :
    (restrictedDecorator f).isCoroutineFunction = f.isCoroutineFunction ∧
    (restrictedDecorator f).call a = f.call a ∧
    is_restricted_function (restrictedDecorator f) = true ∧
    is_restricted_function
      { isCoroutineFunction := b, call := g, attrRestricted := none } = false := by
  cases hf : f.isCoroutineFunction <;>
    simp [restrictedDecorator, is_restricted_function, hf]

end SACM
